import Mathlib

/-!
# Verification of the `chaikin` repository

Shallow embedding of the repository's core algorithms and state machine:

* `src/src/window/algorithm.rs` — `ChaikinAlgorithm` (corner-cutting subdivision);
* `src/src/algorithm.rs` — the standalone `chaikin_algorithm` function;
* `src/src/window.rs` — `WindowManager` state transitions (`update`, the
  `Enter`/commit branch of `handle_input`, `reset`, duplicate-point rejection),
  the alpha-blending pixel write `draw_pixel_aa` and Wu's line algorithm
  `draw_line_aa`;
* `src/src/window/toast.rs` — `Toast`.

Coordinates and alpha values are modelled by `ℚ`.  Every concrete input the
theorems below evaluate uses small dyadic rationals (multiples of 1/4 at
magnitudes well below 2^24) on which `f32` arithmetic is exact, so the
rational model computes bit-for-bit the same values as the Rust code.
Where IEEE-754 `NaN` behaviour matters (duplicate-point rejection uses `f32`
equality), the coordinate type `F` below adds an explicit `nan` element with
the IEEE comparison semantics.
-/

namespace Chaikin

/-- A 2-D point (`nalgebra::Point2<f32>`, re-exported as `types::Point`),
with coordinates modelled by `ℚ`. -/
structure Point where
  x : ℚ
  y : ℚ
deriving DecidableEq, Repr

/-- `window::algorithm::ChaikinAlgorithm`: the two interpolation ratios.
The source fields are `q_ratio` and `r_ratio`. -/
structure ChaikinAlgorithm where
  ratio_q : ℚ
  ratio_r : ℚ
deriving DecidableEq, Repr

/-- `ChaikinAlgorithm::new()` — default ratios 0.25 and 0.75. -/
def ChaikinAlgorithm.new : ChaikinAlgorithm :=
  { ratio_q := 1/4, ratio_r := 3/4 }

/-- The loop body of `ChaikinAlgorithm::calculate_step`: for each pair of
consecutive points `(p0, p1)` emit
`Q = ((1−q)·p0.x + q·p1.x, (1−q)·p0.y + q·p1.y)` then
`R = ((1−r)·p0.x + r·p1.x, (1−r)·p0.y + r·p1.y)`. -/
def chaikinSegs (a : ChaikinAlgorithm) : List Point → List Point
  | p0 :: p1 :: rest =>
      ⟨(1 - a.ratio_q) * p0.x + a.ratio_q * p1.x,
       (1 - a.ratio_q) * p0.y + a.ratio_q * p1.y⟩ ::
      ⟨(1 - a.ratio_r) * p0.x + a.ratio_r * p1.x,
       (1 - a.ratio_r) * p0.y + a.ratio_r * p1.y⟩ ::
      chaikinSegs a (p1 :: rest)
  | _ => []

/-- `ChaikinAlgorithm::calculate_step`: lengths 0/1/2 are returned unchanged;
otherwise the first point, then `Q`,`R` for every consecutive pair, then the
last point. -/
def ChaikinAlgorithm.calculate_step (a : ChaikinAlgorithm) (points : List Point) :
    List Point :=
  match points with
  | [] => []
  | [p] => [p]
  | [p, q] => [p, q]
  | p :: q :: r :: rest =>
      p :: (chaikinSegs a (p :: q :: r :: rest) ++
        [(p :: q :: r :: rest).getLast (List.cons_ne_nil p _)])

/-- `ChaikinAlgorithm::get_step_points`: step 0 or at most two points returns
the input; otherwise `calculate_step` is applied `step` times. -/
def ChaikinAlgorithm.get_step_points (a : ChaikinAlgorithm)
    (initial_points : List Point) (step : ℕ) : List Point :=
  if step = 0 ∨ initial_points.length ≤ 2 then initial_points
  else (a.calculate_step)^[step] initial_points

/-- The loop body of the standalone `chaikin_algorithm` in `src/algorithm.rs`:
for each consecutive pair `(p1, p2)` emit
`q = (0.75·p1.x + 0.25·p2.x, 0.75·p1.y + 0.25·p2.y)` then
`r = (0.25·p1.x + 0.75·p2.x, 0.25·p1.y + 0.75·p2.y)`. -/
def chaikinAlgSegs : List Point → List Point
  | p1 :: p2 :: rest =>
      ⟨3/4 * p1.x + 1/4 * p2.x, 3/4 * p1.y + 1/4 * p2.y⟩ ::
      ⟨1/4 * p1.x + 3/4 * p2.x, 1/4 * p1.y + 3/4 * p2.y⟩ ::
      chaikinAlgSegs (p2 :: rest)
  | _ => []

/-- The standalone `chaikin_algorithm` function of `src/algorithm.rs`:
fewer than two points are returned unchanged; otherwise only the `q`,`r`
pairs are emitted (endpoints are NOT kept). -/
def chaikin_algorithm (points : List Point) : List Point :=
  if points.length < 2 then points
  else chaikinAlgSegs points

/-- The segment loop emits exactly two points per consecutive pair. -/
theorem chaikinSegs_length (a : ChaikinAlgorithm) (pts : List Point) :
    (chaikinSegs a pts).length = 2 * (pts.length - 1) := by
  induction pts with
  | nil => simp [chaikinSegs]
  | cons p rest ih =>
    cases rest with
    | nil => simp [chaikinSegs]
    | cons q rest' =>
      simp only [chaikinSegs, List.length_cons] at ih ⊢
      omega

/-- The standalone segment loop computes the same points as the
`ChaikinAlgorithm` one at the default ratios (0.25, 0.75): the coefficients
`0.75 = 1 − 0.25` and `0.25 = 1 − 0.75` coincide. -/
theorem chaikinAlgSegs_eq_chaikinSegs (pts : List Point) :
    chaikinAlgSegs pts = chaikinSegs ChaikinAlgorithm.new pts := by
  induction pts with
  | nil => simp [chaikinAlgSegs, chaikinSegs]
  | cons p rest ih =>
    cases rest with
    | nil => simp [chaikinAlgSegs, chaikinSegs]
    | cons q rest' =>
      simp only [chaikinAlgSegs, chaikinSegs, ChaikinAlgorithm.new] at ih ⊢
      rw [ih]
      norm_num

/-- C1 (counterexample): on the 3-point input of the spec's own worked
example, `calculate_step` returns 6 points, but the claim's formula
`2(N−1)` gives 4 — the claimed output length is wrong. -/
theorem C1_length_formula_counterexample :
    (ChaikinAlgorithm.new.calculate_step
        [⟨0, 0⟩, ⟨100, 100⟩, ⟨200, 0⟩]).length = 6 ∧ 2 * (3 - 1) ≠ 6 := by
  constructor
  · norm_num [ChaikinAlgorithm.new, ChaikinAlgorithm.calculate_step, chaikinSegs]
  · norm_num

/-- C1 (amended): for every ratio pair and every input polyline of length
N ≥ 3, one `calculate_step` returns 2·N points (the 2(N−1) interpolated
points plus both preserved endpoints), whose first element is the input's
first element and whose last element is the input's last element. -/
theorem C1_step_length_and_endpoints (a : ChaikinAlgorithm) (pts : List Point)
    (h : 3 ≤ pts.length) :
    (a.calculate_step pts).length = 2 * pts.length ∧
    (a.calculate_step pts).head? = pts.head? ∧
    (a.calculate_step pts).getLast? = pts.getLast? := by
  match pts, h with
  | p :: q :: r :: rest, _ =>
    refine ⟨?_, ?_, ?_⟩
    · simp [ChaikinAlgorithm.calculate_step, chaikinSegs_length, chaikinSegs]
      omega
    · simp [ChaikinAlgorithm.calculate_step]
    · simp only [ChaikinAlgorithm.calculate_step]
      rw [show p :: (chaikinSegs a (p :: q :: r :: rest) ++
            [(p :: q :: r :: rest).getLast (List.cons_ne_nil p _)]) =
          (p :: chaikinSegs a (p :: q :: r :: rest)) ++
            [(p :: q :: r :: rest).getLast (List.cons_ne_nil p _)] from rfl]
      rw [List.getLast?_concat]
      rw [List.getLast?_eq_getLast]

/-- C1 witness: the amended statement instantiated on a 3-point polyline. -/
theorem C1_witness :
    (ChaikinAlgorithm.new.calculate_step
        [⟨0, 0⟩, ⟨100, 100⟩, ⟨200, 0⟩]).length = 2 * 3 :=
  (C1_step_length_and_endpoints ChaikinAlgorithm.new
      [⟨0, 0⟩, ⟨100, 100⟩, ⟨200, 0⟩] (by norm_num)).1

/-- C2: one subdivision step with the default ratios (0.25, 0.75) on
`[(0,0),(100,100),(200,0)]` yields exactly
`[(0,0),(25,25),(75,75),(125,75),(175,25),(200,0)]`.  All intermediate
`f32` products and sums of this computation are exact (small multiples of
1/4), so the rational result equals the floating-point one exactly. -/
theorem C2_worked_example :
    ChaikinAlgorithm.new.calculate_step [⟨0, 0⟩, ⟨100, 100⟩, ⟨200, 0⟩] =
      [⟨0, 0⟩, ⟨25, 25⟩, ⟨75, 75⟩, ⟨125, 75⟩, ⟨175, 25⟩, ⟨200, 0⟩] := by
  norm_num [ChaikinAlgorithm.new, ChaikinAlgorithm.calculate_step, chaikinSegs]

/-- C3: inputs of length 0, 1 or 2 pass through `calculate_step` unchanged,
and `get_step_points` returns them unchanged for every step count. -/
theorem C3_short_inputs_identity (a : ChaikinAlgorithm) (pts : List Point)
    (h : pts.length ≤ 2) :
    a.calculate_step pts = pts ∧
    ∀ step : ℕ, a.get_step_points pts step = pts := by
  have hstep : ∀ step : ℕ, a.get_step_points pts step = pts := fun step => by
    unfold ChaikinAlgorithm.get_step_points
    exact if_pos (Or.inr h)
  match pts, h with
  | [], _ => exact ⟨rfl, hstep⟩
  | [p], _ => exact ⟨rfl, hstep⟩
  | [p, q], _ => exact ⟨rfl, hstep⟩

/-- C3 witness: instantiated on a 2-point polyline and step count 5. -/
theorem C3_witness :
    ChaikinAlgorithm.new.calculate_step [⟨0, 0⟩, ⟨100, 100⟩] = [⟨0, 0⟩, ⟨100, 100⟩] ∧
    ChaikinAlgorithm.new.get_step_points [⟨0, 0⟩, ⟨100, 100⟩] 5 = [⟨0, 0⟩, ⟨100, 100⟩] :=
  ⟨(C3_short_inputs_identity ChaikinAlgorithm.new [⟨0, 0⟩, ⟨100, 100⟩] (by norm_num)).1,
   (C3_short_inputs_identity ChaikinAlgorithm.new [⟨0, 0⟩, ⟨100, 100⟩] (by norm_num)).2 5⟩

/-- C9 (counterexample): the two implementations disagree on a 2-point
input — the standalone `chaikin_algorithm` cuts the segment to its
(25%, 75%) interior points, while `calculate_step` returns the input
unchanged. -/
theorem C9_equivalence_counterexample :
    chaikin_algorithm [⟨0, 0⟩, ⟨100, 100⟩] = [⟨25, 25⟩, ⟨75, 75⟩] ∧
    ChaikinAlgorithm.new.calculate_step [⟨0, 0⟩, ⟨100, 100⟩] = [⟨0, 0⟩, ⟨100, 100⟩] ∧
    ([⟨25, 25⟩, ⟨75, 75⟩] : List Point) ≠ [⟨0, 0⟩, ⟨100, 100⟩] := by
  refine ⟨?_, rfl, ?_⟩
  · norm_num [chaikin_algorithm, chaikinAlgSegs]
  · norm_num

/-- C9 (amended): the two implementations agree up to endpoint handling:
they coincide on inputs of length ≤ 1, and for every input of length ≥ 3
`calculate_step` (default ratios) equals the standalone `chaikin_algorithm`
output with the input's first point prepended and its last point appended.
(They genuinely differ on length-2 inputs.) -/
theorem C9_refinement :
    (∀ pts : List Point, pts.length ≤ 1 →
      chaikin_algorithm pts = ChaikinAlgorithm.new.calculate_step pts) ∧
    (∀ (p q r : Point) (rest : List Point),
      ChaikinAlgorithm.new.calculate_step (p :: q :: r :: rest) =
        p :: (chaikin_algorithm (p :: q :: r :: rest) ++
          [(p :: q :: r :: rest).getLast (List.cons_ne_nil p _)])) := by
  constructor
  · intro pts h
    match pts, h with
    | [], _ => rfl
    | [p], _ => rfl
  · intro p q r rest
    have hlen : ¬ (p :: q :: r :: rest).length < 2 := by simp
    simp only [ChaikinAlgorithm.calculate_step, chaikin_algorithm, if_neg hlen,
      chaikinAlgSegs_eq_chaikinSegs]

/-- C9 witness: the amended statement instantiated on the empty polyline and
on a concrete 3-point polyline. -/
theorem C9_witness :
    chaikin_algorithm ([] : List Point) = ChaikinAlgorithm.new.calculate_step [] ∧
    ChaikinAlgorithm.new.calculate_step [⟨0, 0⟩, ⟨100, 100⟩, ⟨200, 0⟩] =
      ⟨0, 0⟩ :: (chaikin_algorithm [⟨0, 0⟩, ⟨100, 100⟩, ⟨200, 0⟩] ++
        [List.getLast [⟨0, 0⟩, ⟨100, 100⟩, ⟨200, 0⟩] (List.cons_ne_nil _ _)]) :=
  ⟨C9_refinement.1 [] (by norm_num),
   C9_refinement.2 ⟨0, 0⟩ ⟨100, 100⟩ ⟨200, 0⟩ []⟩

/-! ## Window state machine (`src/src/window.rs`, `src/src/window/toast.rs`)

The click handler compares points with `f32` equality (`Point2<f32>:
PartialEq`), for which `NaN` compares unequal to everything including
itself.  `F` models an `f32` value as either `nan` or a finite rational;
`F.feq` is the IEEE comparison (all the distinct-rational / nan cases the
claims exercise behave identically in `f32`). -/

/-- An `f32` coordinate: `nan`, or a finite value modelled by `ℚ`. -/
inductive F where
  | nan : F
  | val : ℚ → F
deriving DecidableEq, Repr

/-- IEEE-754 `==` on `F`: `nan` is unequal to everything (itself included);
finite values compare by value. -/
def F.feq : F → F → Bool
  | F.val a, F.val b => a == b
  | _, _ => false

/-- A clicked point, coordinates as `f32` values (`Point2<f32>`). -/
structure PointF where
  x : F
  y : F
deriving DecidableEq, Repr

/-- `Point2<f32>` equality: componentwise `f32` equality. -/
def PointF.feq (p q : PointF) : Bool :=
  F.feq p.x q.x && F.feq p.y q.y

/-- The mouse-click branch of `WindowManager::handle_input`: the point is
appended (`add_point` pushes it) unless some existing point compares
`==`-equal to it. -/
def handle_click (points : List PointF) (p : PointF) : List PointF :=
  if points.any (fun q => PointF.feq q p) then points
  else points ++ [p]

/-- `window::MAX_STEPS`. -/
def MAX_STEPS : ℕ := 7

/-- `window::TOAST_DURATION` (8 seconds), in whole seconds. -/
def TOAST_DURATION : ℕ := 8

/-- `window::toast::Toast`.  `Instant` timestamps are modelled as natural
numbers (seconds of a monotone clock). -/
structure Toast where
  message : String
  shown_since : Option ℕ
deriving DecidableEq, Repr

/-- `Toast::new()`. -/
def Toast.new : Toast :=
  { message := "", shown_since := none }

/-- `Toast::show(message)`: stores the message and stamps the current time. -/
def Toast.show_msg (t : Toast) (message : String) (now : ℕ) : Toast :=
  { t with message := message, shown_since := some now }

/-- `Toast::dismiss()`: clears the timestamp. -/
def Toast.dismiss (t : Toast) : Toast :=
  { t with shown_since := none }

/-- `Toast::is_showing()`: a timestamp is present and its elapsed time is
strictly below `TOAST_DURATION`. -/
def Toast.is_showing (t : Toast) (now : ℕ) : Bool :=
  match t.shown_since with
  | none => false
  | some since => now - since < TOAST_DURATION

/-- `types::AnimationState`. -/
inductive AnimationState where
  | Drawing : AnimationState
  | Animating : AnimationState
deriving DecidableEq, Repr

/-- The claim-relevant state of `WindowManager`: the `WindowState` fields
`points`, `animation_state`, `current_step` plus the `toast` field (the
window handle, font, pixel buffer and buffer dimensions play no role in the
state-machine claims). -/
structure ManagerState where
  points : List PointF
  animation_state : AnimationState
  current_step : ℕ
  toast : Toast
deriving DecidableEq, Repr

/-- The state built by `WindowManager::new`: no points, `Drawing`, step 0,
fresh toast. -/
def ManagerState.initial : ManagerState :=
  { points := []
    animation_state := AnimationState.Drawing
    current_step := 0
    toast := Toast.new }

/-- `WindowManager::update` at a ticker firing (the 1-second guard
`last_call.elapsed() > 1s` holds): while `Animating` the step advances
modulo `MAX_STEPS`; otherwise nothing happens. -/
def update_tick (s : ManagerState) : ManagerState :=
  if s.animation_state = AnimationState.Animating then
    { s with current_step := (s.current_step + 1) % MAX_STEPS }
  else s

/-- The `Enter` branch of `WindowManager::handle_input` (commit request):
with fewer than 2 points it only shows the toast; otherwise it switches to
`Animating` and resets the step to 0. -/
def press_enter (s : ManagerState) (now : ℕ) : ManagerState :=
  if s.points.length < 2 then
    { s with toast := s.toast.show_msg "You did not select enough points" now }
  else
    { s with animation_state := AnimationState.Animating, current_step := 0 }

/-- `WindowManager::reset`: clears the points, returns to `Drawing`, zeroes
the step and replaces (and dismisses) the toast. -/
def reset (s : ManagerState) : ManagerState :=
  { s with
    points := []
    animation_state := AnimationState.Drawing
    current_step := 0
    toast := Toast.new.dismiss }

/-- One ticker firing in an `Animating` state: stays `Animating`, advances
the step modulo `MAX_STEPS`. -/
theorem update_tick_animating (s : ManagerState)
    (h : s.animation_state = AnimationState.Animating) :
    (update_tick s).animation_state = AnimationState.Animating ∧
    (update_tick s).current_step = (s.current_step + 1) % MAX_STEPS := by
  unfold update_tick
  rw [if_pos h]
  exact ⟨h, rfl⟩

/-- Iterating the ticker from an `Animating` state with step 0 walks the
step through `k % MAX_STEPS` while staying `Animating`. -/
theorem update_tick_iterate (s : ManagerState)
    (hanim : s.animation_state = AnimationState.Animating)
    (h0 : s.current_step = 0) (k : ℕ) :
    (update_tick^[k] s).animation_state = AnimationState.Animating ∧
    (update_tick^[k] s).current_step = k % MAX_STEPS := by
  induction k with
  | zero => simpa [MAX_STEPS, Nat.mod_eq_of_lt] using ⟨hanim, h0⟩
  | succ k ih =>
    rw [Function.iterate_succ_apply']
    have hstep := update_tick_animating _ ih.1
    refine ⟨hstep.1, ?_⟩
    rw [hstep.2, ih.2]
    simp only [MAX_STEPS]
    omega

/-- C4: `current_step` stays in `[0, MAX_STEPS)` with `MAX_STEPS = 7`: it
starts at 0, a ticker firing while `Animating` replaces `s` by
`(s+1) % 7`, every operation (tick, commit, reset) preserves the bound,
and from step 0 in `Animating` exactly 7 consecutive ticks return the step
to 0 (no earlier tick does). -/
theorem C4_current_step_invariant :
    MAX_STEPS = 7 ∧
    ManagerState.initial.current_step = 0 ∧
    (∀ s : ManagerState, s.animation_state = AnimationState.Animating →
      (update_tick s).current_step = (s.current_step + 1) % MAX_STEPS) ∧
    (∀ s : ManagerState, s.current_step < MAX_STEPS →
      (update_tick s).current_step < MAX_STEPS) ∧
    (∀ (s : ManagerState) (now : ℕ), s.current_step < MAX_STEPS →
      (press_enter s now).current_step < MAX_STEPS) ∧
    (∀ s : ManagerState, (reset s).current_step < MAX_STEPS) ∧
    (∀ s : ManagerState, s.animation_state = AnimationState.Animating →
      s.current_step = 0 →
      (update_tick^[MAX_STEPS] s).current_step = 0 ∧
      ∀ k : ℕ, 0 < k → k < MAX_STEPS → (update_tick^[k] s).current_step ≠ 0) := by
  refine ⟨rfl, rfl, ?_, ?_, ?_, ?_, ?_⟩
  · intro s hanim
    unfold update_tick
    rw [if_pos hanim]
  · intro s hlt
    unfold update_tick
    by_cases hanim : s.animation_state = AnimationState.Animating
    · rw [if_pos hanim]
      exact Nat.mod_lt _ (by norm_num [MAX_STEPS])
    · rwa [if_neg hanim]
  · intro s now hlt
    unfold press_enter
    by_cases hfew : s.points.length < 2
    · rwa [if_pos hfew]
    · rw [if_neg hfew]
      norm_num [MAX_STEPS]
  · intro s
    norm_num [reset, MAX_STEPS]
  · intro s hanim h0
    refine ⟨?_, ?_⟩
    · rw [(update_tick_iterate s hanim h0 MAX_STEPS).2]
      simp
    · intro k hk0 hk7
      rw [(update_tick_iterate s hanim h0 k).2]
      rw [Nat.mod_eq_of_lt hk7]
      omega

/-- C4 witness: from the initial state forced into `Animating`, 7 ticks wrap
the step back to 0. -/
theorem C4_witness :
    (update_tick^[MAX_STEPS]
      { ManagerState.initial with
        animation_state := AnimationState.Animating }).current_step = 0 :=
  (C4_current_step_invariant.2.2.2.2.2.2
    { ManagerState.initial with animation_state := AnimationState.Animating }
    rfl rfl).1

/-- C5: a commit request (`Enter`) while fewer than 2 points are present
leaves the state `Drawing`, with `current_step` and the point sequence
unchanged, and the toast reports `is_showing = true` at that same instant. -/
theorem C5_commit_too_few_points (s : ManagerState) (now : ℕ)
    (hdraw : s.animation_state = AnimationState.Drawing)
    (hlen : s.points.length < 2) :
    (press_enter s now).animation_state = AnimationState.Drawing ∧
    (press_enter s now).current_step = s.current_step ∧
    (press_enter s now).points = s.points ∧
    (press_enter s now).toast.is_showing now = true := by
  unfold press_enter
  rw [if_pos hlen]
  refine ⟨hdraw, rfl, rfl, ?_⟩
  simp [Toast.show_msg, Toast.is_showing, TOAST_DURATION]

/-- C5 witness: the initial (empty) state with a commit request at time 3. -/
theorem C5_witness :
    (press_enter ManagerState.initial 3).animation_state =
      AnimationState.Drawing ∧
    (press_enter ManagerState.initial 3).toast.is_showing 3 = true :=
  ⟨(C5_commit_too_few_points ManagerState.initial 3 rfl
      (by simp [ManagerState.initial])).1,
   (C5_commit_too_few_points ManagerState.initial 3 rfl
      (by simp [ManagerState.initial])).2.2.2⟩

/-- C6: if some existing point compares `f32`-equal to the clicked point,
the click is a no-op — the sequence is unchanged (in particular its length
does not increase). -/
theorem C6_duplicate_point_noop (points : List PointF) (p : PointF)
    (h : ∃ q ∈ points, PointF.feq q p = true) :
    handle_click points p = points ∧
    (handle_click points p).length = points.length := by
  have hany : points.any (fun q => PointF.feq q p) = true := by
    rw [List.any_eq_true]
    obtain ⟨q, hq, hfeq⟩ := h
    exact ⟨q, hq, hfeq⟩
  unfold handle_click
  rw [if_pos hany]
  exact ⟨rfl, rfl⟩

/-- C6 witness: re-clicking the exact coordinates of an existing point. -/
theorem C6_witness :
    handle_click [⟨F.val 100, F.val 100⟩] ⟨F.val 100, F.val 100⟩ =
      [⟨F.val 100, F.val 100⟩] :=
  (C6_duplicate_point_noop [⟨F.val 100, F.val 100⟩] ⟨F.val 100, F.val 100⟩
    ⟨⟨F.val 100, F.val 100⟩, by simp, by rfl⟩).1

/-- C10: a clicked point with a `NaN` coordinate is never rejected as a
duplicate — `f32` equality is false against every stored point, even a
bitwise-identical `NaN` point — so it is appended and the length strictly
increases. -/
theorem C10_nan_point_always_appended (points : List PointF) (p : PointF)
    (h : p.x = F.nan ∨ p.y = F.nan) :
    handle_click points p = points ++ [p] ∧
    (handle_click points p).length = points.length + 1 := by
  have hfeq : ∀ q : PointF, PointF.feq q p = false := by
    intro q
    rcases h with hx | hy
    · unfold PointF.feq
      rw [hx]
      cases q.x with
      | nan => rfl
      | val a => rfl
    · unfold PointF.feq
      rw [hy]
      rcases q.y with _ | a <;> rcases q.x with _ | b <;>
        rcases p.x with _ | c <;> simp [F.feq]
  have hany : points.any (fun q => PointF.feq q p) = false := by
    rw [List.any_eq_false]
    intro q _
    simp [hfeq q]
  unfold handle_click
  rw [if_neg (by simp [hany])]
  exact ⟨rfl, by simp⟩

/-- C10 witness: adding a `NaN` point on top of an identical `NaN` point
still appends it. -/
theorem C10_witness :
    handle_click [⟨F.nan, F.val 0⟩] ⟨F.nan, F.val 0⟩ =
      [⟨F.nan, F.val 0⟩, ⟨F.nan, F.val 0⟩] :=
  (C10_nan_point_always_appended [⟨F.nan, F.val 0⟩] ⟨F.nan, F.val 0⟩
    (Or.inl rfl)).1

/-! ## Rasterizer: alpha-blended pixel writes (`WindowManager::draw_pixel_aa`) -/

/-- Reassembling the three extracted 8-bit channels of a 24-bit value gives
the value back. -/
theorem recombine_rgb (c : ℕ) (h : c < 2 ^ 24) :
    ((((c >>> 16) &&& 0xFF) <<< 16) ||| (((c >>> 8) &&& 0xFF) <<< 8)) |||
      (c &&& 0xFF) = c := by
  apply Nat.eq_of_testBit_eq
  intro i
  have h255 : (0xFF : ℕ) = 2 ^ 8 - 1 := rfl
  simp only [Nat.testBit_lor, Nat.testBit_land, Nat.testBit_shiftLeft,
    Nat.testBit_shiftRight, h255, Nat.testBit_two_pow_sub_one]
  rcases Nat.lt_or_ge i 8 with h8 | h8
  · simp [show ¬ (16 ≤ i) by omega, show ¬ (8 ≤ i) by omega, show i < 8 from h8]
  rcases Nat.lt_or_ge i 16 with h16 | h16
  · simp [show ¬ (16 ≤ i) by omega, show 8 ≤ i from h8, show i - 8 < 8 by omega,
      show ¬ (i < 8) by omega, show 8 + (i - 8) = i by omega]
  rcases Nat.lt_or_ge i 24 with h24 | h24
  · simp [show 16 ≤ i from h16, show i - 16 < 8 by omega,
      show ¬ (i - 8 < 8) by omega, show ¬ (i < 8) by omega,
      show 16 + (i - 16) = i by omega]
  · have hc : c.testBit i = false :=
      Nat.testBit_lt_two_pow (lt_of_lt_of_le h (Nat.pow_le_pow_right (by norm_num) h24))
    simp [hc, show ¬ (i - 16 < 8) by omega, show ¬ (i - 8 < 8) by omega,
      show ¬ (i < 8) by omega]

/-- Writing back the value already stored at an index leaves a list
unchanged. -/
theorem set_getD_self (l : List ℕ) (i : ℕ) : l.set i (l.getD i 0) = l := by
  induction l generalizing i with
  | nil => rfl
  | cons a t ih =>
    cases i with
    | zero => simp [List.getD]
    | succ n => simpa [List.getD] using ih n

/-- `WindowManager::draw_pixel_aa`: out-of-bounds coordinates are dropped;
otherwise the pixel at `index = y·width + x` is replaced by the channel-wise
blend `alpha·fg + (1−alpha)·bg`, channels extracted and repacked with shifts
16/8/0.  `u32` pixels are modelled by `ℕ`, `f32` blending by `ℚ` (exact at
the alphas 0.0 and 1.0 the claims engage), and the Rust `as u32` cast of the
non-negative blend result by `Int.toNat ∘ Int.floor`. -/
def draw_pixel_aa (width height : ℕ) (buffer : List ℕ) (x y : ℤ)
    (color : ℕ) (alpha : ℚ) : List ℕ :=
  if x < 0 ∨ (width : ℤ) ≤ x ∨ y < 0 ∨ (height : ℤ) ≤ y then buffer
  else
    let index : ℕ := y.toNat * width + x.toNat
    let bg : ℕ := buffer.getD index 0
    let r1 : ℚ := ((color >>> 16) &&& 0xFF : ℕ)
    let g1 : ℚ := ((color >>> 8) &&& 0xFF : ℕ)
    let b1 : ℚ := (color &&& 0xFF : ℕ)
    let r2 : ℚ := ((bg >>> 16) &&& 0xFF : ℕ)
    let g2 : ℚ := ((bg >>> 8) &&& 0xFF : ℕ)
    let b2 : ℚ := (bg &&& 0xFF : ℕ)
    let r : ℕ := (⌊r1 * alpha + r2 * (1 - alpha)⌋).toNat
    let g : ℕ := (⌊g1 * alpha + g2 * (1 - alpha)⌋).toNat
    let b : ℕ := (⌊b1 * alpha + b2 * (1 - alpha)⌋).toNat
    buffer.set index (((r <<< 16) ||| (g <<< 8)) ||| b)

/-- Blending a channel at alpha 1 keeps the foreground channel. -/
theorem floor_one_mix (n m : ℕ) :
    (⌊(n : ℚ) * 1 + (m : ℚ) * (1 - 1)⌋).toNat = n := by
  norm_num

/-- Blending a channel at alpha 0 keeps the background channel. -/
theorem floor_zero_mix (n m : ℕ) :
    (⌊(n : ℚ) * 0 + (m : ℚ) * (1 - 0)⌋).toNat = m := by
  norm_num

/-- C7 (counterexample): the repack `(r<<16)|(g<<8)|b` drops the top byte,
so blending the program's own `TOAST_BG_COLOR = 0x80333333` at alpha 1.0
into an in-bounds pixel stores `0x333333`, not the foreground color. -/
theorem C7_alpha_one_counterexample :
    draw_pixel_aa 1 1 [0] 0 0 0x80333333 1 = [0x333333] ∧
    (0x333333 : ℕ) ≠ 0x80333333 := by
  constructor
  · simp only [draw_pixel_aa]
    norm_num
    decide
  · norm_num

/-- C7 (amended): restricted to 24-bit values (color `< 2^24`; stored
background `< 2^24`, as every `draw_pixel_aa` write produces): for every
in-bounds pixel, alpha 1.0 stores exactly the foreground color and alpha
0.0 leaves the whole buffer unchanged; every out-of-bounds call leaves the
buffer unchanged for every alpha. -/
theorem C7_blend_extremes_and_clipping :
    (∀ (width height : ℕ) (buffer : List ℕ) (x y : ℤ) (color : ℕ),
      0 ≤ x → x < (width : ℤ) → 0 ≤ y → y < (height : ℤ) → color < 2 ^ 24 →
      draw_pixel_aa width height buffer x y color 1 =
        buffer.set (y.toNat * width + x.toNat) color) ∧
    (∀ (width height : ℕ) (buffer : List ℕ) (x y : ℤ) (color : ℕ),
      0 ≤ x → x < (width : ℤ) → 0 ≤ y → y < (height : ℤ) →
      buffer.getD (y.toNat * width + x.toNat) 0 < 2 ^ 24 →
      draw_pixel_aa width height buffer x y color 0 = buffer) ∧
    (∀ (width height : ℕ) (buffer : List ℕ) (x y : ℤ) (color : ℕ) (alpha : ℚ),
      (x < 0 ∨ (width : ℤ) ≤ x ∨ y < 0 ∨ (height : ℤ) ≤ y) →
      draw_pixel_aa width height buffer x y color alpha = buffer) := by
  refine ⟨?_, ?_, ?_⟩
  · intro width height buffer x y color hx0 hxw hy0 hyh hcol
    unfold draw_pixel_aa
    rw [if_neg (by omega)]
    simp only [floor_one_mix]
    rw [recombine_rgb color hcol]
  · intro width height buffer x y color hx0 hxw hy0 hyh hbg
    unfold draw_pixel_aa
    rw [if_neg (by omega)]
    simp only [floor_zero_mix]
    rw [recombine_rgb _ hbg]
    exact set_getD_self _ _
  · intro width height buffer x y color alpha hoob
    unfold draw_pixel_aa
    rw [if_pos hoob]

/-- C7 witness: a 24-bit color (the program's `POINT_COLOR`) at alpha 1
lands exactly; alpha 0 and an out-of-bounds write leave the buffer alone. -/
theorem C7_witness :
    draw_pixel_aa 1 1 [0] 0 0 0xFF5555 1 = [0xFF5555] ∧
    draw_pixel_aa 1 1 [7] 0 0 0xFF5555 0 = [7] ∧
    draw_pixel_aa 1 1 [7] 5 0 0xFF5555 (1/2) = [7] := by
  refine ⟨?_, ?_, ?_⟩
  · have h := C7_blend_extremes_and_clipping.1 1 1 [0] 0 0 0xFF5555
      (by norm_num) (by norm_num) (by norm_num) (by norm_num) (by norm_num)
    simpa using h
  · exact C7_blend_extremes_and_clipping.2.1 1 1 [7] 0 0 0xFF5555
      (by norm_num) (by norm_num) (by norm_num) (by norm_num) (by norm_num)
  · exact C7_blend_extremes_and_clipping.2.2 1 1 [7] 5 0 0xFF5555 (1/2)
      (by norm_num)

/-! ## Rasterizer: Wu's line algorithm (`WindowManager::draw_line_aa`)

`draw_line_aa` is modelled by the list of `draw_pixel_aa` calls it issues
(`draw_line_aa_writes`: entries `(x, y, alpha)` in call order), which is
exactly what the claim about coverage values is about; applying the writes
to a buffer recovers the full effect (`draw_line_aa` below).  `f32`
arithmetic is modelled by `ℚ`: at the integer endpoints the claims engage,
every intermediate value (gradients 0 or 1, halves, integer sums) is exact
in `f32`, and the `1e-6` near-zero test and `f32::round`/`floor`/`as i32`
casts decide identically. -/

/-- Rust `f32::round`: nearest integer, ties away from zero. -/
def rustRound (q : ℚ) : ℤ := if 0 ≤ q then ⌊q + 1/2⌋ else ⌈q - 1/2⌉

/-- `rustRound` fixes integers. -/
theorem rustRound_intCast (n : ℤ) : rustRound (n : ℚ) = n := by
  unfold rustRound
  rcases le_or_lt (0 : ℚ) (n : ℚ) with h | h
  · rw [if_pos h]
    rw [Int.floor_eq_iff]
    constructor <;> norm_num
  · rw [if_neg (not_le.mpr h)]
    rw [Int.ceil_eq_iff]
    constructor <;> norm_num

/-- The main loop of `draw_line_aa`: starting at column `x` with
accumulator `intery`, perform `n` iterations, each splatting the two
`frac(intery)`-weighted pixels (coordinate order swapped when `steep`)
and then adding `gradient` to `intery`. -/
def wuLoop (steep : Bool) (gradient : ℚ) : ℕ → ℤ → ℚ → List (ℤ × ℤ × ℚ)
  | 0, _, _ => []
  | n + 1, x, intery =>
      (if steep then
        [(⌊intery⌋, x, 1 - (intery - (⌊intery⌋ : ℚ))),
         (⌊intery⌋ + 1, x, intery - (⌊intery⌋ : ℚ))]
      else
        [(x, ⌊intery⌋, 1 - (intery - (⌊intery⌋ : ℚ))),
         (x, ⌊intery⌋ + 1, intery - (⌊intery⌋ : ℚ))]) ++
      wuLoop steep gradient n (x + 1) (intery + gradient)

/-- The writes of `draw_line_aa` after the steep- and order-normalising
swaps: the two endpoint splats (with their `xgap` coverages), then the main
loop over the strictly interior integer columns. -/
def wuMain (steep : Bool) (x0 y0 x1 y1 : ℚ) : List (ℤ × ℤ × ℚ) :=
  let dx := x1 - x0
  let dy := y1 - y0
  let gradient := if |dx| < 1/1000000 then 1 else dy / dx
  let xpxl1 : ℤ := rustRound x0
  let yend1 : ℚ := y0 + gradient * ((xpxl1 : ℚ) - x0)
  let xgap1 : ℚ := 1 - |x0 + 1/2 - (xpxl1 : ℚ)|
  let ypxl1 : ℤ := ⌊yend1⌋
  let e1 : List (ℤ × ℤ × ℚ) :=
    if steep then
      [(ypxl1, xpxl1, (1 - (yend1 - (ypxl1 : ℚ))) * xgap1),
       (ypxl1 + 1, xpxl1, (yend1 - (ypxl1 : ℚ)) * xgap1)]
    else
      [(xpxl1, ypxl1, (1 - (yend1 - (ypxl1 : ℚ))) * xgap1),
       (xpxl1, ypxl1 + 1, (yend1 - (ypxl1 : ℚ)) * xgap1)]
  let intery : ℚ := yend1 + gradient
  let xpxl2 : ℤ := rustRound x1
  let yend2 : ℚ := y1 + gradient * ((xpxl2 : ℚ) - x1)
  let xgap2 : ℚ := |x1 + 1/2 - (xpxl2 : ℚ)|
  let ypxl2 : ℤ := ⌊yend2⌋
  let e2 : List (ℤ × ℤ × ℚ) :=
    if steep then
      [(ypxl2, xpxl2, (1 - (yend2 - (ypxl2 : ℚ))) * xgap2),
       (ypxl2 + 1, xpxl2, (yend2 - (ypxl2 : ℚ)) * xgap2)]
    else
      [(xpxl2, ypxl2, (1 - (yend2 - (ypxl2 : ℚ))) * xgap2),
       (xpxl2, ypxl2 + 1, (yend2 - (ypxl2 : ℚ)) * xgap2)]
  e1 ++ e2 ++ wuLoop steep gradient (xpxl2 - (xpxl1 + 1)).toNat (xpxl1 + 1) intery

/-- `WindowManager::draw_line_aa`, as its sequence of `draw_pixel_aa` calls:
decide `steep = |dy| > |dx|`, swap x/y roles if steep, swap the endpoints if
`x0 > x1`, then run the endpoint/loop splats (`wuMain`).  The two swaps are
written out as the four explicit branches they produce. -/
def draw_line_aa_writes (px0 py0 px1 py1 : ℚ) : List (ℤ × ℤ × ℚ) :=
  if |py1 - py0| > |px1 - px0| then
    if py0 > py1 then wuMain true py1 px1 py0 px0
    else wuMain true py0 px0 py1 px1
  else
    if px0 > px1 then wuMain false px1 py1 px0 py0
    else wuMain false px0 py0 px1 py1

/-- `draw_line_aa` acting on a pixel buffer: each emitted write is blended
through `draw_pixel_aa` in call order. -/
def draw_line_aa (width height : ℕ) (buffer : List ℕ)
    (px0 py0 px1 py1 : ℚ) (color : ℕ) : List ℕ :=
  (draw_line_aa_writes px0 py0 px1 py1).foldl
    (fun buf w => draw_pixel_aa width height buf w.1 w.2.1 color w.2.2) buffer

/-- The expected write pattern of an axis-aligned run: at each of `n`
consecutive columns (rows if `steep`), a fully opaque pixel and an
alpha-0 neighbour. -/
def opaqueRun (steep : Bool) (x y : ℤ) : ℕ → List (ℤ × ℤ × ℚ)
  | 0 => []
  | n + 1 =>
      (if steep then [(y, x, 1), (y + 1, x, 0)] else [(x, y, 1), (x, y + 1, 0)]) ++
      opaqueRun steep (x + 1) y n

/-- With gradient 0 and an integral accumulator the main loop emits exactly
the opaque run. -/
theorem wuLoop_const (steep : Bool) (n : ℕ) (x c : ℤ) :
    wuLoop steep 0 n x (c : ℚ) = opaqueRun steep x c n := by
  induction n generalizing x with
  | zero => rfl
  | succ n ih =>
    simp only [wuLoop, opaqueRun, Int.floor_intCast, sub_self, add_zero, sub_zero, ih]

/-- Normalised axis-aligned line (integer endpoints, walk axis increasing):
the two endpoint pixels get coverage 1/2 (with alpha-0 neighbours), the
interior is the opaque run. -/
theorem wuMain_flat (steep : Bool) (X0 X1 Y : ℤ) (h : X0 < X1) :
    wuMain steep (X0 : ℚ) (Y : ℚ) (X1 : ℚ) (Y : ℚ) =
      (if steep then
        [((Y : ℤ), X0, (1 : ℚ)/2), (Y + 1, X0, 0), (Y, X1, 1/2), (Y + 1, X1, 0)]
       else
        [(X0, (Y : ℤ), (1 : ℚ)/2), (X0, Y + 1, 0), (X1, Y, 1/2), (X1, Y + 1, 0)]) ++
      opaqueRun steep (X0 + 1) Y (X1 - (X0 + 1)).toNat := by
  have hdx1 : (1 : ℚ) ≤ (X1 : ℚ) - (X0 : ℚ) := by
    have h' : X0 + 1 ≤ X1 := Int.add_one_le_iff.mpr h
    have h2 : ((X0 : ℚ) + 1) ≤ (X1 : ℚ) := by exact_mod_cast h'
    linarith
  have habs : |(X1 : ℚ) - (X0 : ℚ)| = (X1 : ℚ) - (X0 : ℚ) := abs_of_nonneg (by linarith)
  have hgrad : ¬ (|(X1 : ℚ) - (X0 : ℚ)| < 1/1000000) := by rw [habs]; linarith
  have hhalf0 : |(X0 : ℚ) + 1/2 - (X0 : ℚ)| = 1/2 := by
    rw [show (X0 : ℚ) + 1/2 - (X0 : ℚ) = 1/2 by ring]
    norm_num
  have hhalf1 : |(X1 : ℚ) + 1/2 - (X1 : ℚ)| = 1/2 := by
    rw [show (X1 : ℚ) + 1/2 - (X1 : ℚ) = 1/2 by ring]
    norm_num
  simp only [wuMain]
  rw [if_neg hgrad]
  rw [rustRound_intCast, rustRound_intCast]
  simp only [sub_self, zero_div, zero_mul, add_zero, Int.floor_intCast,
    hhalf0, hhalf1, wuLoop_const]
  cases steep <;> norm_num

/-- C8 (counterexample): the horizontal integer-endpoint line from (0,0) to
(3,0) writes coverage 1/2 — strictly between 0 and 1 — at its own endpoint
pixel (0,0) (standard Wu endpoint `xgap`), so the run is not fully opaque
and fractional coverage does occur. -/
theorem C8_half_coverage_counterexample :
    draw_line_aa_writes 0 0 3 0 =
      [(0, 0, 1/2), (0, 1, 0), (3, 0, 1/2), (3, 1, 0),
       (1, 0, 1), (1, 1, 0), (2, 0, 1), (2, 1, 0)] ∧
    ((0 : ℚ) < 1/2 ∧ (1/2 : ℚ) < 1) := by
  constructor
  · rw [draw_line_aa_writes, if_neg (by norm_num), if_neg (by norm_num)]
    have h := wuMain_flat false 0 3 0 (by norm_num)
    push_cast at h
    rw [h]
    norm_num [opaqueRun]
  · norm_num

/-- C8 (amended): for every horizontal (equal `y`, distinct integer `x`)
and vertical (equal `x`, distinct integer `y`) line, either endpoint order:
`draw_line_aa` writes a single-pixel-wide run whose strictly interior
pixels are fully opaque (alpha 1), whose two endpoint pixels get alpha 1/2,
and whose only other writes are alpha-0 splats on the adjacent row
(resp. column) — no pixel outside the run receives fractional coverage. -/
theorem C8_axis_aligned_runs :
    (∀ X0 X1 Y : ℤ, X0 < X1 →
      draw_line_aa_writes X0 Y X1 Y =
        [(X0, Y, 1/2), (X0, Y + 1, 0), (X1, Y, 1/2), (X1, Y + 1, 0)] ++
          opaqueRun false (X0 + 1) Y (X1 - (X0 + 1)).toNat ∧
      draw_line_aa_writes X1 Y X0 Y =
        [(X0, Y, 1/2), (X0, Y + 1, 0), (X1, Y, 1/2), (X1, Y + 1, 0)] ++
          opaqueRun false (X0 + 1) Y (X1 - (X0 + 1)).toNat) ∧
    (∀ X Y0 Y1 : ℤ, Y0 < Y1 →
      draw_line_aa_writes X Y0 X Y1 =
        [(X, Y0, 1/2), (X + 1, Y0, 0), (X, Y1, 1/2), (X + 1, Y1, 0)] ++
          opaqueRun true (Y0 + 1) X (Y1 - (Y0 + 1)).toNat ∧
      draw_line_aa_writes X Y1 X Y0 =
        [(X, Y0, 1/2), (X + 1, Y0, 0), (X, Y1, 1/2), (X + 1, Y1, 0)] ++
          opaqueRun true (Y0 + 1) X (Y1 - (Y0 + 1)).toNat) := by
  constructor
  · intro X0 X1 Y h
    have hsteep : ¬ (|(Y : ℚ) - (Y : ℚ)| > |(X1 : ℚ) - (X0 : ℚ)|) := by
      simp [not_lt, abs_nonneg]
    have hsteep' : ¬ (|(Y : ℚ) - (Y : ℚ)| > |(X0 : ℚ) - (X1 : ℚ)|) := by
      simp [not_lt, abs_nonneg]
    have hcast : (X0 : ℚ) < (X1 : ℚ) := by exact_mod_cast h
    constructor
    · have hord : ¬ ((X0 : ℚ) > (X1 : ℚ)) := not_lt.mpr hcast.le
      rw [draw_line_aa_writes, if_neg hsteep, if_neg hord]
      exact wuMain_flat false X0 X1 Y h
    · have hord : (X1 : ℚ) > (X0 : ℚ) := hcast
      rw [draw_line_aa_writes, if_neg hsteep', if_pos hord]
      exact wuMain_flat false X0 X1 Y h
  · intro X Y0 Y1 h
    have hcast : (Y0 : ℚ) < (Y1 : ℚ) := by exact_mod_cast h
    have hsteep : |(Y1 : ℚ) - (Y0 : ℚ)| > |(X : ℚ) - (X : ℚ)| := by
      simp [abs_pos, sub_ne_zero]
      omega
    have hsteep' : |(Y0 : ℚ) - (Y1 : ℚ)| > |(X : ℚ) - (X : ℚ)| := by
      simp [abs_pos, sub_ne_zero]
      omega
    constructor
    · have hord : ¬ ((Y0 : ℚ) > (Y1 : ℚ)) := not_lt.mpr hcast.le
      rw [draw_line_aa_writes, if_pos hsteep, if_neg hord]
      exact wuMain_flat true Y0 Y1 X h
    · have hord : (Y1 : ℚ) > (Y0 : ℚ) := hcast
      rw [draw_line_aa_writes, if_pos hsteep', if_pos hord]
      exact wuMain_flat true Y0 Y1 X h

/-- C8 witness: the amended statement instantiated on the horizontal line
from (0,5) to (2,5). -/
theorem C8_witness :
    draw_line_aa_writes ((0 : ℤ) : ℚ) ((5 : ℤ) : ℚ) ((2 : ℤ) : ℚ) ((5 : ℤ) : ℚ) =
      [((0 : ℤ), (5 : ℤ), (1 : ℚ)/2), (0, 5 + 1, 0), (2, 5, 1/2), (2, 5 + 1, 0)] ++
      opaqueRun false (0 + 1) 5 ((2 : ℤ) - (0 + 1)).toNat :=
  (C8_axis_aligned_runs.1 0 2 5 (by norm_num)).1

end Chaikin
